import Mathlib

/-!
Verification of the ergonomadic IRC daemon's lookup, mask, password and
configuration code, shallowly embedded from the Go sources in src/irc
(client_lookup_set.go, password.go, config.go).  Strings are modelled as
Lean strings, Go maps as association lists, the SQL client table as a list
of rows constrained by its declared schema, and the regular expressions
generated by UserMaskSet.setRegexp by a small matcher for exactly the
fragment of RE2 syntax that the generator emits.
-/

namespace Ergonomadic

/-- Atom of the regular expressions generated by UserMaskSet.setRegexp: a
literal character, the dot wildcard, the dot-star wildcard, or one of the two
anchors.  The generated expressions contain no other constructs. -/
inductive RAtom where
  | lit (c : Char)
  | dot
  | star
  | caret
  | dollar
deriving DecidableEq

/-- Parsing of a generated expression into its list of top-level alternatives.
In the generated strings a backslash escapes the following character (this is
regexp.QuoteMeta output), dot-star and dot are the only wildcard forms, the
two anchors pass through, and the vertical bar separates alternatives. -/
def parseAlts : List Char → List RAtom → List (List RAtom) → List (List RAtom)
  | [], cur, acc => acc ++ [cur.reverse]
  | '\\' :: c :: rest, cur, acc => parseAlts rest (.lit c :: cur) acc
  | '|' :: rest, cur, acc => parseAlts rest [] (acc ++ [cur.reverse])
  | '.' :: '*' :: rest, cur, acc => parseAlts rest (.star :: cur) acc
  | '.' :: rest, cur, acc => parseAlts rest (.dot :: cur) acc
  | '^' :: rest, cur, acc => parseAlts rest (.caret :: cur) acc
  | '$' :: rest, cur, acc => parseAlts rest (.dollar :: cur) acc
  | c :: rest, cur, acc => parseAlts rest (.lit c :: cur) acc

/-- Matching of one alternative at one position, with RE2's boolean
semantics for the generated fragment: caret succeeds only at the start of the
subject, dollar only at its end, dot consumes one character, dot-star any run.
The Nat argument is fuel bounding the recursion; every step consumes at least
one atom or one subject character, so atom count plus subject length plus one
is always enough. -/
def atomsMatchF : Nat → List RAtom → Bool → List Char → Bool
  | 0, _, _, _ => false
  | _ + 1, [], _, _ => true
  | fuel + 1, .caret :: as, atStart, s => atStart && atomsMatchF fuel as atStart s
  | fuel + 1, .dollar :: as, atStart, s => s.isEmpty && atomsMatchF fuel as atStart s
  | fuel + 1, .lit c :: as, _, s =>
      match s with
      | [] => false
      | x :: xs => decide (x = c) && atomsMatchF fuel as false xs
  | fuel + 1, .dot :: as, _, s =>
      match s with
      | [] => false
      | _ :: xs => atomsMatchF fuel as false xs
  | fuel + 1, .star :: as, atStart, s =>
      atomsMatchF fuel as atStart s ||
        (match s with
         | [] => false
         | _ :: xs => atomsMatchF fuel (.star :: as) false xs)

/-- Matching of one alternative at one position with sufficient fuel. -/
def atomsMatch (as : List RAtom) (atStart : Bool) (s : List Char) : Bool :=
  atomsMatchF (as.length + s.length + 1) as atStart s

/-- Matching of any alternative at one position. -/
def altsMatchHere (alts : List (List RAtom)) (atStart : Bool) (s : List Char) : Bool :=
  alts.any (fun a => atomsMatch a atStart s)

/-- Search of the subject for a match at any position, the semantics of Go's
Regexp.MatchString: the expression is not implicitly anchored. -/
def reSearch (alts : List (List RAtom)) : Bool → List Char → Bool
  | atStart, [] => altsMatchHere alts atStart []
  | atStart, x :: xs => altsMatchHere alts atStart (x :: xs) || reSearch alts false xs

/-- Boolean match of a generated expression against a subject. -/
def reMatchChars (pattern subject : List Char) : Bool :=
  reSearch (parseAlts pattern [] []) true subject

/-- Characters escaped by Go's regexp.QuoteMeta. -/
def goRegexSpecial : List Char :=
  ['\\', '.', '+', '*', '?', '(', ')', '|', '[', ']', '\x7b', '\x7d', '^', '$']

/-- Embedding of regexp.QuoteMeta: each special character is preceded by a
backslash, every other character is kept. -/
def quoteMeta (s : List Char) : List Char :=
  (s.map (fun c => if c ∈ goRegexSpecial then ['\\', c] else [c])).flatten

/-- Embedding of Go's strings.Split for a one-character separator. -/
def splitChar (sep : Char) : List Char → List (List Char)
  | [] => [[]]
  | c :: rest =>
      match splitChar sep rest with
      | [] => [[]]
      | g :: gs => if c = sep then [] :: g :: gs else (c :: g) :: gs

/-- Embedding of the per-mask expression built inside UserMaskSet.setRegexp:
split the mask on star, split each piece on question mark, meta-escape the
literal fragments, rejoin with dot and dot-star. -/
def maskExpr (mask : List Char) : List Char :=
  List.intercalate ['.', '*']
    ((splitChar '*' mask).map
      (fun part => List.intercalate ['.'] ((splitChar '?' part).map quoteMeta)))

/-- Embedding of UserMaskSet.setRegexp (client_lookup_set.go:238-261).  With
no masks the compiled regexp is nil, modelled as none.  Otherwise the loop
writes maskExprs[index] for every mask but never increments index, exactly as
the Go code does, so every slot except slot zero keeps its zero value (the
empty string); a Go map is iterated in unspecified order, modelled here by
iterating the mask list in order, so slot zero ends up holding the expression
of the last mask.  The ignored regexp.Compile error cannot occur on the
generated strings. -/
def setRegexpChars (masks : List (List Char)) : Option (List Char) :=
  match masks with
  | [] => none
  | _ :: _ =>
      let maskExprs :=
        masks.foldl (fun arr mask => arr.set 0 (maskExpr mask))
          (List.replicate masks.length ([] : List Char))
      some ('^' :: (List.intercalate ['|'] maskExprs ++ ['$']))

/-- String-level form of setRegexpChars. -/
def setRegexpExpr (masks : List String) : Option String :=
  (setRegexpChars (masks.map String.data)).map String.mk

/-- Embedding of UserMaskSet.Match (client_lookup_set.go:215-220): false when
the compiled regexp is nil, otherwise an unanchored search of the compiled
expression in the subject.  The set of masks determines the compiled regexp
because setRegexp runs after every mutation of the set. -/
def UserMaskSet.Match (masks : List String) (userhost : String) : Bool :=
  match setRegexpChars (masks.map String.data) with
  | none => false
  | some e => reMatchChars e userhost.data

/-- Embedding of UserMaskSet.Remove (client_lookup_set.go:206-213): deleting a
member mask returns true, removing an absent mask returns false and leaves the
set unchanged. -/
def UserMaskSet.Remove (masks : List String) (mask : String) : List String × Bool :=
  if mask ∈ masks then (masks.erase mask, true) else (masks, false)

/-- ASCII lowercasing of one character, the folding applied by SQLite's
NOCASE collation and the first stage of the spec's RFC 1459 folding. -/
def nocaseChar (c : Char) : Char :=
  if 'A' ≤ c ∧ c ≤ 'Z' then Char.ofNat (c.toNat + 32) else c

/-- Folding of the four RFC 1459 special characters after lowercasing. -/
def braceFoldChar (c : Char) : Char :=
  if c = '\x7b' then '['
  else if c = '|' then '\\'
  else if c = '\x7d' then ']'
  else if c = '^' then '~'
  else c

/-- RFC 1459 case folding of one character as the spec describes Name.ToLower
(spec §4.1).  Modelled from the spec: the Name type is not among the given
sources. -/
def rfcFoldChar (c : Char) : Char :=
  braceFoldChar (nocaseChar c)

/-- RFC 1459 case folding of a string. -/
def rfcFold (s : String) : String :=
  String.mk (s.data.map rfcFoldChar)

/-- ASCII-lowercased form of a string, the key compared by COLLATE NOCASE. -/
def nocaseStr (s : String) : String :=
  String.mk (s.data.map nocaseChar)

/-- Glob matching as the spec words it for claim C1: star matches any run of
characters, question mark any single character, and any other character
matches itself; fuelled like atomsMatchF. -/
def globMatchF : Nat → List Char → List Char → Bool
  | 0, _, _ => false
  | _ + 1, [], s => s.isEmpty
  | fuel + 1, '*' :: ms, s =>
      globMatchF fuel ms s ||
        (match s with
         | [] => false
         | _ :: xs => globMatchF fuel ('*' :: ms) xs)
  | fuel + 1, '?' :: ms, s =>
      match s with
      | [] => false
      | _ :: xs => globMatchF fuel ms xs
  | fuel + 1, c :: ms, s =>
      match s with
      | [] => false
      | x :: xs => decide (x = c) && globMatchF fuel ms xs

/-- Case-insensitive glob match of one mask, following the claim's words:
both mask and subject are case-folded before matching. -/
def specGlobMatch (mask subject : String) : Bool :=
  globMatchF ((rfcFold mask).data.length + (rfcFold subject).data.length + 1)
    (rfcFold mask).data (rfcFold subject).data

/-- Match of a mask set as the claim words it: some member mask matches. -/
def specMaskSetMatch (masks : List String) (subject : String) : Bool :=
  masks.any (fun m => specGlobMatch m subject)

/-- Combined expression as claim C2 words it: each per-mask expression is
anchored on its own and the anchored expressions are joined with the
alternation bar. -/
def specUnionExpr (masks : List String) : String :=
  String.mk
    (List.intercalate ['|']
      (masks.map (fun m => '^' :: (maskExpr m.data ++ ['$']))))

/-- Embedding of strings.Contains specialized to the one-character substrings
checked by ExpandUserHost. -/
def containsChar (s : String) (c : Char) : Bool :=
  s.data.any (fun x => x == c)

/-- Embedding of ExpandUserHost (client_lookup_set.go:28-38): append bang-star
when the name holds no bang, then append at-star when the result holds no
at-sign. -/
def ExpandUserHost (userhost : String) : String :=
  let e1 := if containsChar userhost '!' then userhost else userhost ++ "!*"
  if containsChar e1 '@' then e1 else e1 ++ "@*"

/-- Replacement pairs of the likeQuoter (client_lookup_set.go:16-21) in source
order; all patterns are single characters, written here as characters with
their replacements as character lists. -/
def likeQuoterPairs : List (Char × List Char) :=
  [('\\', ['\\', '\\']), ('%', ['\\', '%']), ('_', ['\\', '_']), ('*', ['%']), ('?', ['_'])]

/-- Replacement of one character by the first pair whose pattern matches it,
else by itself. -/
def replaceChar (pairs : List (Char × List Char)) (c : Char) : List Char :=
  match pairs with
  | [] => [c]
  | p :: rest => if c = p.1 then p.2 else replaceChar rest c

/-- Embedding of strings.Replacer.Replace for single-character patterns: the
input is scanned left to right, each character is replaced by the first
matching pair, and replacements are never rescanned. -/
def replacerRun (pairs : List (Char × List Char)) : List Char → List Char
  | [] => []
  | c :: rest => replaceChar pairs c ++ replacerRun pairs rest

/-- Embedding of QuoteLike (client_lookup_set.go:40-42). -/
def QuoteLike (userhost : String) : String :=
  String.mk (replacerRun likeQuoterPairs userhost.data)

/-- Per-character transliteration as claim C4 words it: star to percent,
question mark to underscore, and a backslash put before each literal
backslash, percent and underscore; every other character unchanged. -/
def specLikeChar (c : Char) : List Char :=
  if c = '*' then ['%']
  else if c = '?' then ['_']
  else if c = '\\' then ['\\', '\\']
  else if c = '%' then ['\\', '%']
  else if c = '_' then ['\\', '_']
  else [c]

/-- Value of one character of the standard base64 alphabet. -/
def b64Val (c : Char) : Option Nat :=
  if 'A' ≤ c ∧ c ≤ 'Z' then some (c.toNat - 65)
  else if 'a' ≤ c ∧ c ≤ 'z' then some (c.toNat - 97 + 26)
  else if '0' ≤ c ∧ c ≤ '9' then some (c.toNat - 48 + 52)
  else if c = '+' then some 62
  else if c = '/' then some 63
  else none

/-- Decoding of base64 input four characters at a time.  The result is the
decoded byte list together with a flag marking malformed input; Go's
DecodeString likewise returns the data decoded so far together with an error.
Padding may close the final group only, and the decoder is not strict about
the unused bits of a padded group, matching base64.StdEncoding. -/
def b64Groups : List Char → List Nat × Bool
  | [] => ([], false)
  | c1 :: c2 :: c3 :: c4 :: rest =>
      match b64Val c1, b64Val c2 with
      | some v1, some v2 =>
          if c3 = '=' then
            if c4 = '=' ∧ rest = [] then ([v1 * 4 + v2 / 16], false)
            else ([], true)
          else
            match b64Val c3 with
            | some v3 =>
                if c4 = '=' then
                  if rest = [] then ([v1 * 4 + v2 / 16, v2 % 16 * 16 + v3 / 4], false)
                  else ([], true)
                else
                  match b64Val c4 with
                  | some v4 =>
                      match b64Groups rest with
                      | (tailBytes, bad) =>
                          ((v1 * 4 + v2 / 16) :: (v2 % 16 * 16 + v3 / 4) ::
                            (v3 % 4 * 64 + v4) :: tailBytes, bad)
                  | none => ([], true)
            | none => ([], true)
      | _, _ => ([], true)
  | _ => ([], true)

/-- Embedding of base64.StdEncoding.DecodeString: carriage returns and line
feeds are ignored, the rest is decoded in groups of four. -/
def base64Decode (s : String) : List Nat × Bool :=
  b64Groups (s.data.filter (fun c => decide (c ≠ '\r') && decide (c ≠ '\n')))

/-- Errors DecodePassword can return: its own InvalidPasswordError and the
decode error of the base64 package. -/
inductive PasswordError where
  | invalidPassword
  | corruptInput
deriving DecidableEq

/-- Embedding of DecodePassword (password.go:28-37): the empty credential is
returned as-is with no error before any decoding; otherwise the input is
base64-decoded and the error is overwritten with InvalidPasswordError whenever
the decoded hash is shorter than 60 bytes. -/
def DecodePassword (encoded : String) : List Nat × Option PasswordError :=
  if encoded = "" then ([], none)
  else
    match base64Decode encoded with
    | (decoded, bad) =>
        (decoded,
          if decoded.length < 60 then some .invalidPassword
          else if bad then some .corruptInput else none)

/-- Server section of the configuration: the fields LoadConfig checks.  The
remaining fields take no part in its checks. -/
structure Config where
  name : String
  database : String
  listen : List String
deriving DecidableEq

/-- Embedding of LoadConfig (config.go:91-110) given the outcome of the
external gcfg parse: a parse failure is propagated, then the three required
fields are checked in order. -/
def LoadConfig (parsed : Except String Config) : Except String Config :=
  match parsed with
  | .error e => .error e
  | .ok config =>
      if config.name = "" then .error "server.name missing"
      else if config.database = "" then .error "server.database missing"
      else if config.listen.length = 0 then .error "server.listen missing"
      else .ok config

/-- Client attributes used by the lookup set.  The id field models Go pointer
identity, which Add and Remove compare; nick, user and host are the attributes
of the spec's data model (§3).  Modelled from the spec: the Client type is not
among the given sources. -/
structure Client where
  id : Nat
  nick : String
  user : String
  host : String
deriving DecidableEq

/-- Client.HasNick: the client has acquired a nickname.  Modelled from the
spec: a client gets its nick from NICK during registration. -/
def Client.HasNick (c : Client) : Bool :=
  c.nick ≠ ""

/-- Client.Nick of a client holding a nick.  Modelled from the spec: the Name
attribute of the client.  ClientLookupSet.Add and Remove read it only behind
the HasNick guard. -/
def Client.Nick (c : Client) : String :=
  c.nick

/-- Client.UserHost: the spec's UserHost triple rendered nick!user@host
(spec §3).  Modelled from the spec: the rendering is not among the given
sources. -/
def Client.UserHost (c : Client) : String :=
  c.nick ++ "!" ++ c.user ++ "@" ++ c.host

/-- Errors returned by ClientLookupSet.Add and Remove
(client_lookup_set.go:12-14). -/
inductive LookupErr where
  | nickMissing
  | nicknameInUse
  | nicknameMismatch
deriving DecidableEq

/-- Row set of the client table created by NewClientDB
(client_lookup_set.go:138-145).  The schema declares nickname TEXT UNIQUE
COLLATE NOCASE with a unique index, userhost TEXT COLLATE NOCASE with a unique
index, and UNIQUE (nickname, userhost) ON CONFLICT REPLACE. -/
structure ClientDB where
  table : List (String × String)
deriving DecidableEq

/-- Equality under SQLite's NOCASE collation: ASCII letters compare
case-insensitively. -/
def nocaseEq (a b : String) : Bool :=
  decide (nocaseStr a = nocaseStr b)

/-- Embedding of ClientDB.Add (client_lookup_set.go:155-161).  The INSERT is
checked against the schema of NewClientDB: a row whose nickname or userhost
collides under NOCASE with an existing row violates a UNIQUE constraint, the
Exec returns an error, ClientDB.Add logs and ignores it, and the table is
unchanged.  A duplicate of a whole (nickname, userhost) row also collides on
the nickname constraint, so the ON CONFLICT REPLACE clause of the pair
constraint never acts alone.  A conflict-free row is appended. -/
def ClientDB.Add (db : ClientDB) (nickname userhost : String) : ClientDB :=
  if db.table.any (fun r => nocaseEq r.1 nickname || nocaseEq r.2 userhost) then db
  else ⟨db.table ++ [(nickname, userhost)]⟩

/-- Embedding of ClientDB.Remove (client_lookup_set.go:163-169): DELETE of
every row whose nickname equals the given one under the column's NOCASE
collation. -/
def ClientDB.Remove (db : ClientDB) (nickname : String) : ClientDB :=
  ⟨db.table.filter (fun r => !(nocaseEq r.1 nickname))⟩

/-- State of a ClientLookupSet (client_lookup_set.go:44-47): the nick map as
an association list from folded nickname to client, and the client db. -/
structure ClientLookupSet where
  byNick : List (String × Client)
  db : ClientDB
deriving DecidableEq

/-- Fresh lookup set over a fresh database, as NewClientLookupSet builds when
the backing file starts empty. -/
def ClientLookupSet.empty : ClientLookupSet :=
  ⟨[], ⟨[]⟩⟩

/-- Lookup of a key in the nick map. -/
def lookupNick (l : List (String × Client)) (key : String) : Option Client :=
  (l.find? (fun e => decide (e.1 = key))).map (fun e => e.2)

/-- Assignment of a key in the nick map: any old binding of the key goes away
and the new one is appended. -/
def insertNick (l : List (String × Client)) (key : String) (c : Client) :
    List (String × Client) :=
  l.filter (fun e => decide (e.1 ≠ key)) ++ [(key, c)]

/-- Embedding of ClientLookupSet.Get (client_lookup_set.go:56-58): lookup by
folded nickname. -/
def ClientLookupSet.Get (s : ClientLookupSet) (nick : String) : Option Client :=
  lookupNick s.byNick (rfcFold nick)

/-- Embedding of ClientLookupSet.Add (client_lookup_set.go:60-70): reject a
client without a nick, reject when the folded nick is already mapped,
otherwise store the client under its folded nick and insert its row into the
db.  The error is returned with the resulting state. -/
def ClientLookupSet.Add (s : ClientLookupSet) (c : Client) :
    Option LookupErr × ClientLookupSet :=
  if c.HasNick = false then (some .nickMissing, s)
  else if (s.Get c.nick).isSome then (some .nicknameInUse, s)
  else
    (none,
      ⟨insertNick s.byNick (rfcFold (Client.Nick c)) c,
        s.db.Add (Client.Nick c) (Client.UserHost c)⟩)

/-- Embedding of ClientLookupSet.Remove (client_lookup_set.go:72-82): reject a
client without a nick, reject unless the folded nick maps to this very
client, otherwise delete the map entry and the db rows of this nickname. -/
def ClientLookupSet.Remove (s : ClientLookupSet) (c : Client) :
    Option LookupErr × ClientLookupSet :=
  if c.HasNick = false then (some .nickMissing, s)
  else if s.Get c.nick ≠ some c then (some .nicknameMismatch, s)
  else
    (none,
      ⟨s.byNick.filter (fun e => decide (e.1 ≠ rfcFold c.nick)),
        s.db.Remove (Client.Nick c)⟩)

/-- Addition to a ClientSet: the Go set is a map keyed by the client, so
adding a member twice leaves it unchanged. -/
def clientSetAdd (set : List Client) (c : Client) : List Client :=
  if c ∈ set then set else set ++ [c]

/-- Row loop of ClientLookupSet.FindAll (client_lookup_set.go:94-108): rows
are consumed in order, a scan failure stops the loop and returns the set
built so far, a nickname missing from the nick map is skipped, every other
nickname adds its client. -/
def findAllLoop (byNick : List (String × Client)) :
    List (Except Unit String) → List Client → List Client
  | [], set => set
  | .error _ :: _, set => set
  | .ok nickname :: rest, set =>
      match lookupNick byNick (rfcFold nickname) with
      | none => findAllLoop byNick rest set
      | some c => findAllLoop byNick rest (clientSetAdd set c)

/-- Embedding of ClientLookupSet.FindAll (client_lookup_set.go:84-110).  The
backing store is abstracted as the function answering the LIKE query: it
returns a query error or the list of row scan outcomes.  A query error yields
the empty set just built. -/
def ClientLookupSet.FindAll (s : ClientLookupSet)
    (query : String → Except Unit (List (Except Unit String)))
    (userhost : String) : List Client :=
  match query (QuoteLike (ExpandUserHost userhost)) with
  | .error _ => []
  | .ok rows => findAllLoop s.byNick rows []

/-- Embedding of ClientLookupSet.Find (client_lookup_set.go:112-124): a
failing scan of the single row yields none, otherwise the nickname resolves
through the nick map. -/
def ClientLookupSet.Find (s : ClientLookupSet)
    (query : String → Except Unit String)
    (userhost : String) : Option Client :=
  match query (QuoteLike (ExpandUserHost userhost)) with
  | .error _ => none
  | .ok nickname => s.Get nickname

/-- States of a ClientLookupSet reachable from the fresh state by Add and
Remove. -/
inductive Reachable : ClientLookupSet → Prop where
  | empty : Reachable ClientLookupSet.empty
  | add (s : ClientLookupSet) (c : Client) (h : Reachable s) :
      Reachable (ClientLookupSet.Add s c).2
  | remove (s : ClientLookupSet) (c : Client) (h : Reachable s) :
      Reachable (ClientLookupSet.Remove s c).2

/-- Userhost of the candidate client collides under NOCASE with no row
already in the db. -/
def clashFree (s : ClientLookupSet) (c : Client) : Bool :=
  s.db.table.all (fun r => !(nocaseEq r.2 (Client.UserHost c)))

/-- Reachable states along whose history every Add was free of userhost
collisions against the db. -/
inductive ReachableNoClash : ClientLookupSet → Prop where
  | empty : ReachableNoClash ClientLookupSet.empty
  | add (s : ClientLookupSet) (c : Client) (h : ReachableNoClash s)
      (hfree : clashFree s c = true) :
      ReachableNoClash (ClientLookupSet.Add s c).2
  | remove (s : ClientLookupSet) (c : Client) (h : ReachableNoClash s) :
      ReachableNoClash (ClientLookupSet.Remove s c).2

/-- Boolean form of claim C6's invariant on the nick map: any two clients it
contains are the same client or carry different folded nicknames. -/
def nickUniqueB : List (String × Client) → Bool
  | [] => true
  | e :: rest =>
      rest.all (fun f =>
        decide (e.2 = f.2) || decide (rfcFold e.2.nick ≠ rfcFold f.2.nick)) &&
        nickUniqueB rest

/-- Row written for a client by ClientDB.Add. -/
def rowOf (c : Client) : String × String :=
  (Client.Nick c, Client.UserHost c)

/-- Keys of the nick map are the folded nicks of their clients. -/
def KeysFolded (l : List (String × Client)) : Prop :=
  ∀ e ∈ l, e.1 = rfcFold e.2.nick

/-- Keys of the nick map are pairwise distinct. -/
def KeysDistinct (l : List (String × Client)) : Prop :=
  l.Pairwise (fun e f => e.1 ≠ f.1)

/-- NOCASE equality is reflexive. -/
theorem nocaseEq_refl (a : String) : nocaseEq a a = true := by
  simp [nocaseEq]

/-- NOCASE-equal strings have equal RFC 1459 folds: the fold factors through
ASCII lowercasing. -/
theorem nocaseEq_fold (a b : String) (h : nocaseEq a b = true) : rfcFold a = rfcFold b := by
  have h' : a.data.map nocaseChar = b.data.map nocaseChar := by
    have hs : nocaseStr a = nocaseStr b := of_decide_eq_true h
    have hd := congrArg String.data hs
    simpa [nocaseStr] using hd
  have hmap : a.data.map rfcFoldChar = b.data.map rfcFoldChar := by
    have ha : a.data.map rfcFoldChar = (a.data.map nocaseChar).map braceFoldChar := by
      simp [List.map_map, rfcFoldChar, Function.comp]
    have hb : b.data.map rfcFoldChar = (b.data.map nocaseChar).map braceFoldChar := by
      simp [List.map_map, rfcFoldChar, Function.comp]
    rw [ha, hb, h']
  unfold rfcFold
  rw [hmap]

/-- Lookup misses exactly when no entry carries the key. -/
theorem lookupNick_eq_none (l : List (String × Client)) (k : String) :
    lookupNick l k = none ↔ ∀ e ∈ l, e.1 ≠ k := by
  simp [lookupNick, List.find?_eq_none]

/-- Lookup under pairwise distinct keys finds each member at its key. -/
theorem lookupNick_mem (l : List (String × Client)) (e : String × Client)
    (hd : KeysDistinct l) (he : e ∈ l) : lookupNick l e.1 = some e.2 := by
  induction l with
  | nil => cases he
  | cons x xs ih =>
      rcases List.mem_cons.mp he with h | h
      · subst h
        simp [lookupNick, List.find?_cons_of_pos]
      · have hx : x.1 ≠ e.1 := (List.pairwise_cons.mp hd).1 e h
        have hd' : KeysDistinct xs := (List.pairwise_cons.mp hd).2
        have hrec := ih hd' h
        simpa [lookupNick, List.find?_cons_of_neg, hx] using hrec

/-- Filtering commutes with mapping when the predicate is composed. -/
theorem map_filter_comm {α β : Type} (f : α → β) (q : β → Bool) (l : List α) :
    (l.map f).filter q = (l.filter (fun x => q (f x))).map f := by
  induction l with
  | nil => rfl
  | cons x xs ih =>
      by_cases h : q (f x) = true
      · simp [List.filter_cons, h, ih]
      · simp [List.filter_cons, h, ih]

/-- Success shape of ClientLookupSet.Add: with a nick present and the folded
nick unmapped, the client is stored and its row inserted. -/
theorem add_success (s : ClientLookupSet) (c : Client)
    (h1 : c.HasNick = true) (h2 : (s.Get c.nick).isSome = false) :
    ClientLookupSet.Add s c =
      (none,
        ⟨insertNick s.byNick (rfcFold (Client.Nick c)) c,
          s.db.Add (Client.Nick c) (Client.UserHost c)⟩) := by
  simp [ClientLookupSet.Add, h1, h2]

/-- Success shape of ClientLookupSet.Remove: when the folded nick maps to this
very client, the map entry and the db rows of the nickname go away. -/
theorem remove_success (s : ClientLookupSet) (c : Client)
    (h1 : c.HasNick = true) (h2 : s.Get c.nick = some c) :
    ClientLookupSet.Remove s c =
      (none,
        ⟨s.byNick.filter (fun e => decide (e.1 ≠ rfcFold c.nick)),
          s.db.Remove (Client.Nick c)⟩) := by
  simp [ClientLookupSet.Remove, h1, h2]

/-- States reachable by Add and Remove have well-formed nick maps: keys are
the folded nicks of their clients and are pairwise distinct. -/
theorem reachable_wf (s : ClientLookupSet) (h : Reachable s) :
    KeysFolded s.byNick ∧ KeysDistinct s.byNick := by
  induction h with
  | empty =>
      exact ⟨fun e he => absurd he (List.not_mem_nil e), List.Pairwise.nil⟩
  | add s c _ ih =>
      by_cases h1 : c.HasNick = false
      · simpa [ClientLookupSet.Add, h1] using ih
      · have h1' : c.HasNick = true := by simpa using h1
        by_cases h2 : (s.Get c.nick).isSome = true
        · simpa [ClientLookupSet.Add, if_neg h1, h2] using ih
        · have h2' : (s.Get c.nick).isSome = false := by simpa using h2
          rw [add_success s c h1' h2']
          constructor
          · intro e he
            rcases List.mem_append.mp he with hf | hl
            · exact ih.1 e (List.mem_of_mem_filter hf)
            · have he' : e = (rfcFold (Client.Nick c), c) := List.mem_singleton.mp hl
              subst he'
              rfl
          · apply List.pairwise_append.mpr
            refine ⟨ih.2.filter _, List.pairwise_singleton _ _, ?_⟩
            intro a ha b hb
            have hb' : b = (rfcFold (Client.Nick c), c) := List.mem_singleton.mp hb
            subst hb'
            have haf := List.of_mem_filter ha
            simpa using haf
  | remove s c _ ih =>
      by_cases h1 : c.HasNick = false
      · simpa [ClientLookupSet.Remove, h1] using ih
      · have h1' : c.HasNick = true := by simpa using h1
        by_cases h2 : s.Get c.nick = some c
        · rw [remove_success s c h1' h2]
          constructor
          · intro e he
            exact ih.1 e (List.mem_of_mem_filter he)
          · exact ih.2.filter _
        · simpa [ClientLookupSet.Remove, if_neg h1, if_pos h2] using ih

/-- Clash-free reachability implies plain reachability. -/
theorem nc_reachable (s : ClientLookupSet) (h : ReachableNoClash s) : Reachable s := by
  induction h with
  | empty => exact Reachable.empty
  | add s c _ _ ih => exact Reachable.add s c ih
  | remove s c _ ih => exact Reachable.remove s c ih

/-- Along clash-free histories the db table is exactly the row image of the
nick map. -/
theorem reachableNC_table (s : ClientLookupSet) (h : ReachableNoClash s) :
    s.db.table = s.byNick.map (fun e => rowOf e.2) := by
  induction h with
  | add s c hs hfree ih =>
      obtain ⟨hKF, hKD⟩ := reachable_wf s (nc_reachable s hs)
      by_cases h1 : c.HasNick = false
      · simpa [ClientLookupSet.Add, h1] using ih
      · have h1' : c.HasNick = true := by simpa using h1
        by_cases h2 : (s.Get c.nick).isSome = true
        · simpa [ClientLookupSet.Add, if_neg h1, h2] using ih
        · have h2' : (s.Get c.nick).isSome = false := by simpa using h2
          have hnone : ∀ e ∈ s.byNick, e.1 ≠ rfcFold c.nick := by
            have hn : lookupNick s.byNick (rfcFold c.nick) = none := by
              have ho := Option.not_isSome_iff_eq_none.mp h2
              simpa [ClientLookupSet.Get] using ho
            exact (lookupNick_eq_none _ _).mp hn
          have hnoconf :
              s.db.table.any
                (fun r => nocaseEq r.1 (Client.Nick c) || nocaseEq r.2 (Client.UserHost c)) =
                false := by
            cases hany : s.db.table.any
                (fun r => nocaseEq r.1 (Client.Nick c) || nocaseEq r.2 (Client.UserHost c)) with
            | false => rfl
            | true =>
                exfalso
                obtain ⟨r, hr, hp⟩ := List.any_eq_true.mp hany
                rw [ih] at hr
                obtain ⟨e, he, hre⟩ := List.mem_map.mp hr
                rw [← hre] at hp
                rcases Bool.or_eq_true_iff.mp hp with hcc | hcc
                · have hfold : rfcFold e.2.nick = rfcFold c.nick := by
                    have hf := nocaseEq_fold _ _ hcc
                    simpa [rowOf, Client.Nick] using hf
                  have hk : e.1 = rfcFold c.nick := by rw [hKF e he, hfold]
                  exact hnone e he hk
                · have hall := List.all_eq_true.mp hfree (rowOf e.2) (by
                    rw [ih]
                    exact List.mem_map_of_mem _ he)
                  rw [hcc] at hall
                  simp at hall
          have hfilter :
              s.byNick.filter (fun e => decide (e.1 ≠ rfcFold (Client.Nick c))) = s.byNick := by
            apply List.filter_eq_self.mpr
            intro a ha
            have hne := hnone a ha
            simpa [Client.Nick] using hne
          rw [add_success s c h1' h2']
          show (s.db.Add (Client.Nick c) (Client.UserHost c)).table =
            (insertNick s.byNick (rfcFold (Client.Nick c)) c).map (fun e => rowOf e.2)
          unfold ClientDB.Add
          rw [if_neg (by simp [hnoconf])]
          show s.db.table ++ [(Client.Nick c, Client.UserHost c)] =
            (insertNick s.byNick (rfcFold (Client.Nick c)) c).map (fun e => rowOf e.2)
          rw [insertNick, hfilter, List.map_append, ih]
          rfl
  | remove s c hs ih =>
      obtain ⟨hKF, hKD⟩ := reachable_wf s (nc_reachable s hs)
      by_cases h1 : c.HasNick = false
      · simpa [ClientLookupSet.Remove, h1] using ih
      · have h1' : c.HasNick = true := by simpa using h1
        by_cases h2 : s.Get c.nick = some c
        · have hpt : ∀ e ∈ s.byNick,
              (!(nocaseEq (rowOf e.2).1 (Client.Nick c))) = decide (e.1 ≠ rfcFold c.nick) := by
            intro e he
            have hkey : e.1 = rfcFold e.2.nick := hKF e he
            cases hcc : nocaseEq e.2.nick c.nick with
            | true =>
                have hfold : rfcFold e.2.nick = rfcFold c.nick := nocaseEq_fold _ _ hcc
                have hk : e.1 = rfcFold c.nick := by rw [hkey, hfold]
                simp [rowOf, Client.Nick, hcc, hk]
            | false =>
                have hneq : e.1 ≠ rfcFold c.nick := by
                  intro heq
                  have hlook : lookupNick s.byNick e.1 = some e.2 := lookupNick_mem _ e hKD he
                  have hgetc : lookupNick s.byNick (rfcFold c.nick) = some c := by
                    simpa [ClientLookupSet.Get] using h2
                  rw [heq, hgetc] at hlook
                  have he2 : c = e.2 := Option.some.inj hlook
                  rw [← he2] at hcc
                  rw [nocaseEq_refl] at hcc
                  cases hcc
                simp [rowOf, Client.Nick, hcc, hneq]
          rw [remove_success s c h1' h2]
          show (s.db.Remove (Client.Nick c)).table =
            (s.byNick.filter (fun e => decide (e.1 ≠ rfcFold c.nick))).map (fun e => rowOf e.2)
          unfold ClientDB.Remove
          show s.db.table.filter (fun r => !(nocaseEq r.1 (Client.Nick c))) =
            (s.byNick.filter (fun e => decide (e.1 ≠ rfcFold c.nick))).map (fun e => rowOf e.2)
          rw [ih, map_filter_comm, List.filter_congr hpt]
        · simpa [ClientLookupSet.Remove, if_neg h1, if_pos h2] using ih
  | empty => rfl


/-- Containment distributes over append. -/
theorem containsChar_append (a b : String) (c : Char) :
    containsChar (a ++ b) c = (containsChar a c || containsChar b c) := by
  simp [containsChar, String.data_append, List.any_append]

/-- Appended bang-star holds no at-sign. -/
theorem containsChar_bangstar_at : containsChar "!*" '@' = false := by decide

/-- Appended at-star holds an at-sign. -/
theorem containsChar_atstar_at : containsChar "@*" '@' = true := by decide

/-- Appended bang-star holds a bang. -/
theorem containsChar_bangstar_bang : containsChar "!*" '!' = true := by decide

/-- Appended at-star holds no bang. -/
theorem containsChar_atstar_bang : containsChar "@*" '!' = false := by decide

/-- Expansion of an already expanded userhost changes nothing. -/
theorem expand_idem (uh : String) :
    ExpandUserHost (ExpandUserHost uh) = ExpandUserHost uh := by
  by_cases h1 : containsChar uh '!' = true <;> by_cases h2 : containsChar uh '@' = true <;>
    simp [ExpandUserHost, h1, h2, containsChar_append, containsChar_bangstar_at,
      containsChar_atstar_at, containsChar_bangstar_bang, containsChar_atstar_bang]

/-- Character-level agreement of the likeQuoter with the claim's
transliteration table. -/
theorem replaceChar_spec (c : Char) : replaceChar likeQuoterPairs c = specLikeChar c := by
  by_cases h1 : c = '\\'
  · subst h1; decide
  · by_cases h2 : c = '%'
    · subst h2; decide
    · by_cases h3 : c = '_'
      · subst h3; decide
      · by_cases h4 : c = '*'
        · subst h4; decide
        · by_cases h5 : c = '?'
          · subst h5; decide
          · simp [replaceChar, likeQuoterPairs, specLikeChar, h1, h2, h3, h4, h5]

/-- Well-formed nick maps satisfy the boolean uniqueness check. -/
theorem nickUniqueB_of_wf (l : List (String × Client))
    (hKF : KeysFolded l) (hKD : KeysDistinct l) : nickUniqueB l = true := by
  induction l with
  | nil => rfl
  | cons e rest ih =>
      obtain ⟨hhead, htail⟩ := List.pairwise_cons.mp hKD
      have hKF' : KeysFolded rest := fun f hf => hKF f (List.mem_cons_of_mem e hf)
      simp only [nickUniqueB, Bool.and_eq_true]
      refine ⟨List.all_eq_true.mpr ?_, ih hKF' htail⟩
      intro f hf
      have h1 : e.1 ≠ f.1 := hhead f hf
      have h2 : e.1 = rfcFold e.2.nick := hKF e (List.mem_cons_self e rest)
      have h3 : f.1 = rfcFold f.2.nick := hKF f (List.mem_cons_of_mem e hf)
      have hne : rfcFold e.2.nick ≠ rfcFold f.2.nick := by
        rw [← h2, ← h3]
        exact h1
      simp [hne]

/-- Claim C1: UserMaskSet.Match was claimed to hold exactly when some member
mask glob-matches the userhost case-insensitively.  The code diverges twice.
With the two masks a and b, Match accepts the userhost c that no mask
glob-matches: the never-incremented index of setRegexp leaves an empty
alternative in the or-expression, and the trailing anchor alone matches every
subject.  With the single mask A, Match rejects the userhost a although the
folded forms agree: no case folding is applied to mask or subject. -/
theorem c1_match_diverges :
    UserMaskSet.Match ["a", "b"] "c" = true ∧
      specMaskSetMatch ["a", "b"] "c" = false ∧
      UserMaskSet.Match ["A"] "a" = false ∧
      specMaskSetMatch ["A"] "a" = true := by
  decide

/-- Claim C2: the compiled matcher was claimed to be the bar-union of the
per-mask anchored expressions.  For the two masks a and b the code emits the
expression anchored-b-bar-anchored-nothing, because the expression of every
mask is written into slot zero of the array and one anchor pair wraps the
whole union, while the claim's construction yields anchored-a-bar-anchored-b;
the two differ observably on the subject c. -/
theorem c2_regexp_diverges :
    setRegexpExpr ["a", "b"] = some "^b|$" ∧
      specUnionExpr ["a", "b"] = "^a$|^b$" ∧
      reMatchChars "^b|$".data "c".data = true ∧
      reMatchChars "^a$|^b$".data "c".data = false := by
  decide

/-- Claim C3: ExpandUserHost appends bang-star when the name holds no bang
and at-star when it holds no at-sign, a bare nick expands to
nick-bang-star-at-star, and Find as well as FindAll query for the expanded
name: querying for the expansion is the same as querying for the original. -/
theorem c3_expand_userhost (uh : String) (s : ClientLookupSet)
    (q : String → Except Unit (List (Except Unit String)))
    (q1 : String → Except Unit String) :
    ExpandUserHost uh =
      (if containsChar uh '!' then uh else uh ++ "!*") ++
        (if containsChar uh '@' then "" else "@*") ∧
      ExpandUserHost "nick" = "nick!*@*" ∧
      ClientLookupSet.FindAll s q uh = ClientLookupSet.FindAll s q (ExpandUserHost uh) ∧
      ClientLookupSet.Find s q1 uh = ClientLookupSet.Find s q1 (ExpandUserHost uh) := by
  refine ⟨?_, by decide, ?_, ?_⟩
  · by_cases h1 : containsChar uh '!' = true <;> by_cases h2 : containsChar uh '@' = true <;>
      simp [ExpandUserHost, h1, h2, containsChar_append, containsChar_bangstar_at]
  · simp only [ClientLookupSet.FindAll, expand_idem]
  · simp only [ClientLookupSet.Find, expand_idem]

/-- Claim C4: QuoteLike turns star into percent and question mark into
underscore, puts a backslash before each literal backslash, percent and
underscore, and keeps every other character. -/
theorem c4_quote_like (userhost : String) :
    QuoteLike userhost = String.mk ((userhost.data.map specLikeChar).flatten) := by
  unfold QuoteLike
  congr 1
  induction userhost.data with
  | nil => rfl
  | cons c cs ih => simp [replacerRun, ih, replaceChar_spec]

/-- Claim C5, counterexample: DecodePassword accepts the empty credential
with no error although its decoded hash is empty, hence far shorter than 60
bytes; the claim says every credential whose decoded hash is shorter than 60
bytes is rejected. -/
theorem c5_counterexample :
    DecodePassword "" = ([], none) ∧ (DecodePassword "").1.length < 60 := by
  decide

/-- Claim C5, amended: for every non-empty encoded credential, DecodePassword
errors whenever the decoded hash is shorter than 60 bytes, and accepts only
when the decoded hash is at least 60 bytes long. -/
theorem c5_amended (encoded : String) (h : encoded ≠ "") :
    ((DecodePassword encoded).1.length < 60 → (DecodePassword encoded).2 ≠ none) ∧
      ((DecodePassword encoded).2 = none → 60 ≤ (DecodePassword encoded).1.length) := by
  unfold DecodePassword
  rw [if_neg h]
  cases hb : base64Decode encoded with
  | mk decoded bad =>
      dsimp only
      by_cases hlen : decoded.length < 60
      · simp [hlen]
      · constructor
        · intro hc
          exact absurd hc hlen
        · intro _
          omega

/-- Witness of c5_amended at a concrete 80-character credential decoding to
exactly 60 bytes. -/
theorem c5_witness :
    ((DecodePassword (String.mk (List.replicate 80 'A'))).1.length < 60 →
      (DecodePassword (String.mk (List.replicate 80 'A'))).2 ≠ none) ∧
      ((DecodePassword (String.mk (List.replicate 80 'A'))).2 = none →
        60 ≤ (DecodePassword (String.mk (List.replicate 80 'A'))).1.length) :=
  c5_amended (String.mk (List.replicate 80 'A')) (by decide)

/-- Claim C6: in every state reachable by Add and Remove, no two clients of
the nick map share a folded nickname, and adding a client whose folded nick is
already mapped returns the nickname-in-use error and leaves the state
unchanged. -/
theorem c6_nick_uniqueness (s : ClientLookupSet) (h : Reachable s) :
    nickUniqueB s.byNick = true ∧
      ∀ c : Client, c.HasNick = true → (s.Get c.nick).isSome = true →
        ClientLookupSet.Add s c = (some LookupErr.nicknameInUse, s) := by
  obtain ⟨hKF, hKD⟩ := reachable_wf s h
  refine ⟨nickUniqueB_of_wf _ hKF hKD, ?_⟩
  intro c hc hg
  simp [ClientLookupSet.Add, hc, hg]

/-- Witness of c6_nick_uniqueness at the state holding the client alice, with
a second client whose nick ALICE folds to the same key. -/
theorem c6_witness :
    nickUniqueB (ClientLookupSet.Add ClientLookupSet.empty ⟨1, "alice", "u", "h"⟩).2.byNick =
        true ∧
      ClientLookupSet.Add (ClientLookupSet.Add ClientLookupSet.empty ⟨1, "alice", "u", "h"⟩).2
          ⟨2, "ALICE", "u2", "h2"⟩ =
        (some LookupErr.nicknameInUse,
          (ClientLookupSet.Add ClientLookupSet.empty ⟨1, "alice", "u", "h"⟩).2) := by
  have h := c6_nick_uniqueness (ClientLookupSet.Add ClientLookupSet.empty
      ⟨1, "alice", "u", "h"⟩).2
    (Reachable.add ClientLookupSet.empty ⟨1, "alice", "u", "h"⟩ Reachable.empty)
  exact ⟨h.1, h.2 ⟨2, "ALICE", "u2", "h2"⟩ (by decide) (by decide)⟩

/-- Claim C7, counterexample: the two clients render the same userhost string
although their nicks differ, so the second Add succeeds in the nick map while
its INSERT violates the unique userhost index, is logged and dropped; the
second client ends mapped with no row of its own in the db. -/
theorem c7_counterexample :
    (ClientLookupSet.Add (ClientLookupSet.Add ClientLookupSet.empty
        ⟨1, "a", "b!u", "h"⟩).2 ⟨2, "a!b", "u", "h"⟩).1 = none ∧
      (∃ e ∈ (ClientLookupSet.Add (ClientLookupSet.Add ClientLookupSet.empty
          ⟨1, "a", "b!u", "h"⟩).2 ⟨2, "a!b", "u", "h"⟩).2.byNick,
        e.2 = ⟨2, "a!b", "u", "h"⟩) ∧
      rowOf ⟨2, "a!b", "u", "h"⟩ ∉
        (ClientLookupSet.Add (ClientLookupSet.Add ClientLookupSet.empty
          ⟨1, "a", "b!u", "h"⟩).2 ⟨2, "a!b", "u", "h"⟩).2.db.table := by
  decide

/-- Claim C7, amended: along every history of Add and Remove in which no
added client's userhost collides case-insensitively with a row already in the
db, the two indexes stay coordinated: every mapped client has its row in the
db and every db row is the row of some mapped client. -/
theorem c7_amended (s : ClientLookupSet) (h : ReachableNoClash s) :
    (∀ e ∈ s.byNick, rowOf e.2 ∈ s.db.table) ∧
      (∀ r ∈ s.db.table, ∃ e ∈ s.byNick, r = rowOf e.2) := by
  have ht := reachableNC_table s h
  constructor
  · intro e he
    rw [ht]
    exact List.mem_map_of_mem _ he
  · intro r hr
    rw [ht] at hr
    obtain ⟨e, he, hre⟩ := List.mem_map.mp hr
    exact ⟨e, he, hre.symm⟩

/-- Witness of c7_amended at the clash-free state holding the client alice. -/
theorem c7_witness :
    (∀ e ∈ (ClientLookupSet.Add ClientLookupSet.empty ⟨1, "alice", "u", "h"⟩).2.byNick,
        rowOf e.2 ∈
          (ClientLookupSet.Add ClientLookupSet.empty ⟨1, "alice", "u", "h"⟩).2.db.table) ∧
      (∀ r ∈ (ClientLookupSet.Add ClientLookupSet.empty ⟨1, "alice", "u", "h"⟩).2.db.table,
        ∃ e ∈ (ClientLookupSet.Add ClientLookupSet.empty ⟨1, "alice", "u", "h"⟩).2.byNick,
          r = rowOf e.2) :=
  c7_amended (ClientLookupSet.Add ClientLookupSet.empty ⟨1, "alice", "u", "h"⟩).2
    (ReachableNoClash.add ClientLookupSet.empty ⟨1, "alice", "u", "h"⟩
      ReachableNoClash.empty (by decide))

/-- Claim C8, counterexample: when the first row scans fine and resolves and
the second row's scan fails, FindAll returns the one client gathered before
the failure, not the empty set the claim promises for a scan failure. -/
theorem c8_counterexample :
    ClientLookupSet.FindAll
        ⟨[("alice", ⟨1, "alice", "u", "h"⟩)], ⟨[]⟩⟩
        (fun _ => Except.ok [Except.ok "alice", Except.error ()]) "m" =
      [⟨1, "alice", "u", "h"⟩] ∧
      ClientLookupSet.FindAll
        ⟨[("alice", ⟨1, "alice", "u", "h"⟩)], ⟨[]⟩⟩
        (fun _ => Except.ok [Except.ok "alice", Except.error ()]) "m" ≠ [] := by
  decide

/-- Claim C8, amended: a failing query yields the empty set from FindAll and
none from Find; a scan failure makes FindAll return exactly the clients
gathered from the rows before it, the later rows being ignored; and a nickname
the nick map cannot resolve is skipped. -/
theorem c8_amended (s : ClientLookupSet)
    (q : String → Except Unit (List (Except Unit String)))
    (q1 : String → Except Unit String) (uh : String) :
    (q (QuoteLike (ExpandUserHost uh)) = Except.error () →
      ClientLookupSet.FindAll s q uh = []) ∧
      (∀ (done tail : List (Except Unit String)) (set : List Client),
        findAllLoop s.byNick (done ++ Except.error () :: tail) set =
          findAllLoop s.byNick (done ++ [Except.error ()]) set) ∧
      (∀ (nickname : String) (rest : List (Except Unit String)) (set : List Client),
        lookupNick s.byNick (rfcFold nickname) = none →
          findAllLoop s.byNick (Except.ok nickname :: rest) set =
            findAllLoop s.byNick rest set) ∧
      (q1 (QuoteLike (ExpandUserHost uh)) = Except.error () →
        ClientLookupSet.Find s q1 uh = none) := by
  refine ⟨?_, ?_, ?_, ?_⟩
  · intro hq
    simp [ClientLookupSet.FindAll, hq]
  · intro done
    induction done with
    | nil =>
        intro tail set
        rfl
    | cons r rest ih =>
        intro tail set
        cases r with
        | error e => rfl
        | ok nickname =>
            cases hl : lookupNick s.byNick (rfcFold nickname) with
            | none => simp [findAllLoop, hl, ih]
            | some c => simp [findAllLoop, hl, ih]
  · intro nickname rest set hl
    simp [findAllLoop, hl]
  · intro hq
    simp [ClientLookupSet.Find, hq]

/-- Witness of c8_amended on the state holding alice, a failing query, a row
list failing after its first row, and a stale nickname. -/
theorem c8_witness :
    ClientLookupSet.FindAll ⟨[("alice", ⟨1, "alice", "u", "h"⟩)], ⟨[]⟩⟩
        (fun _ => Except.error ()) "m" = [] ∧
      findAllLoop [("alice", ⟨1, "alice", "u", "h"⟩)]
          ([Except.ok "alice"] ++ Except.error () :: [Except.ok "bob"]) [] =
        findAllLoop [("alice", ⟨1, "alice", "u", "h"⟩)]
          ([Except.ok "alice"] ++ [Except.error ()]) [] ∧
      findAllLoop [("alice", ⟨1, "alice", "u", "h"⟩)] (Except.ok "ghost" :: []) [] =
        findAllLoop [("alice", ⟨1, "alice", "u", "h"⟩)] [] [] ∧
      ClientLookupSet.Find ⟨[("alice", ⟨1, "alice", "u", "h"⟩)], ⟨[]⟩⟩
        (fun _ => Except.error ()) "m" = none := by
  have h := c8_amended ⟨[("alice", ⟨1, "alice", "u", "h"⟩)], ⟨[]⟩⟩
    (fun _ => Except.error ()) (fun _ => Except.error ()) "m"
  exact ⟨h.1 rfl, h.2.1 [Except.ok "alice"] [Except.ok "bob"] [],
    h.2.2.1 "ghost" [] [] (by decide), h.2.2.2 rfl⟩

/-- Claim C9: after a successful parse, LoadConfig errors exactly when the
server name, the database path or the listen list is missing, and returns the
configuration unchanged when all three are present. -/
theorem c9_load_config (c : Config) :
    (c.name = "" ∨ c.database = "" ∨ c.listen.length = 0 →
      ∃ e, LoadConfig (Except.ok c) = Except.error e) ∧
      (c.name ≠ "" → c.database ≠ "" → c.listen.length ≠ 0 →
        LoadConfig (Except.ok c) = Except.ok c) := by
  constructor
  · intro h
    by_cases h1 : c.name = ""
    · exact ⟨"server.name missing", by simp [LoadConfig, h1]⟩
    · by_cases h2 : c.database = ""
      · exact ⟨"server.database missing", by simp [LoadConfig, h1, h2]⟩
      · have h3 : c.listen.length = 0 := by tauto
        exact ⟨"server.listen missing", by simp [LoadConfig, h1, h2, h3]⟩
  · intro h1 h2 h3
    simp [LoadConfig, h1, h2, h3]

/-- Witness of c9_load_config at a configuration missing its name and at a
complete configuration. -/
theorem c9_witness :
    (∃ e, LoadConfig (Except.ok ⟨"", "ergonomadic.db", ["127.0.0.1:6667"]⟩) =
      Except.error e) ∧
      LoadConfig (Except.ok ⟨"irc.example", "ergonomadic.db", ["127.0.0.1:6667"]⟩) =
        Except.ok ⟨"irc.example", "ergonomadic.db", ["127.0.0.1:6667"]⟩ :=
  ⟨(c9_load_config ⟨"", "ergonomadic.db", ["127.0.0.1:6667"]⟩).1 (Or.inl rfl),
    (c9_load_config ⟨"irc.example", "ergonomadic.db", ["127.0.0.1:6667"]⟩).2
      (by decide) (by decide) (by decide)⟩

/-- Claim C10: a UserMaskSet holding no masks matches no userhost, and
removing the last mask empties the set, whose compiled regexp setRegexp then
clears to nil so Match keeps answering false. -/
theorem c10_empty_never_matches (userhost mask : String) :
    UserMaskSet.Match [] userhost = false ∧
      (UserMaskSet.Remove [mask] mask).1 = [] ∧
      setRegexpExpr (UserMaskSet.Remove [mask] mask).1 = none ∧
      UserMaskSet.Match (UserMaskSet.Remove [mask] mask).1 userhost = false := by
  have hrm : (UserMaskSet.Remove [mask] mask).1 = [] := by
    simp [UserMaskSet.Remove]
  refine ⟨rfl, hrm, ?_, ?_⟩
  · rw [hrm]
    rfl
  · rw [hrm]
    rfl

end Ergonomadic
